import Mathlib

/-!
Verification of the badminton-elimination core (`badminton_elimination.py`):
the `Division` / `Team` registry, `create_network`, `network_flows`,
`linear_programming` and `is_eliminated`, shallowly embedded over lists and
`Except`.  Team registries are keyed by consecutive integer IDs `0..n-1`
exactly as `readDivision` builds them (`enumerate` over the input rows), so
dictionary access `self.teams[i]` succeeds iff `i < n`.  Calls into the
external `networkx` and `picos`/`cvxopt` libraries are modelled by
mathematical definitions of what those libraries document themselves to
compute; the places where the library behaviour is not documented (negative
capacities fed to `networkx.maximum_flow`) are modelled as an unspecified
failure, never as a verdict.
-/

namespace Badminton

/-- Errors surfaced by the embedded code: `notFound` models `KeyError` from a
dictionary access on a missing team ID and the `ValueError("Team does not
exist in given input.")` raised by `Team.get_against` / `checkTeam`;
`graphErr` models `networkx.NetworkXError` (for instance calling
`maximum_flow` or `successors` with a node absent from the graph);
`unspecified` marks a call whose library behaviour is undocumented
(negative capacities handed to `networkx.maximum_flow`). -/
inductive Err where
  | notFound
  | graphErr
  | unspecified
  deriving DecidableEq

/-- A team record, as built by `readDivision`: integer ID, display name,
win/loss/remaining counts and the row `against` of remaining head-to-head
games, indexed by opponent team ID. -/
structure Team where
  ID : ℕ
  name : String
  wins : ℕ
  losses : ℕ
  remaining : ℕ
  against : List ℕ
  deriving DecidableEq

/-- Embeds `Team.get_against`: `self.against[other_team]` guarded by
`try/except` re-raising `ValueError("Team does not exist in given input.")`.
Opponent IDs are natural numbers (IDs assigned by `enumerate`), so the one
possible failure of the list indexing is an out-of-range index. -/
def Team.get_against (t : Team) (other_team : ℕ) : Except Err ℕ :=
  match t.against[other_team]? with
  | some num_games => Except.ok num_games
  | none => Except.error Err.notFound

/-- The division: `self.teams`, a dict from team ID to `Team` whose keys are
`0..n-1` in insertion order, represented as the list of teams in ID order. -/
structure Division where
  teams : List Team
  deriving DecidableEq

/-- Dictionary access `self.teams[i]`: `KeyError` (`notFound`) iff `i` is not
a key, i.e. iff `n ≤ i`. -/
def lookupTeam (d : Division) (i : ℕ) : Except Err Team :=
  match d.teams[i]? with
  | some t => Except.ok t
  | none => Except.error Err.notFound

/-- Embeds `Division.get_team_IDs`: the dict keys, `0..n-1` in order. -/
def get_team_IDs (d : Division) : List ℕ :=
  List.range d.teams.length

/-- Embeds `Division.checkTeam`: raises `ValueError` when the ID of the
given team is not a key of the registry. -/
def checkTeam (d : Division) (t : Team) : Except Err Unit :=
  if t.ID ∈ get_team_IDs d then Except.ok () else Except.error Err.notFound

/-- The keys of `dict(self.teams)` after `del`/`pop` of the candidate:
all registry IDs except `teamID`, in insertion (= numeric) order. -/
def remainingIDs (d : Division) (teamID : ℕ) : List ℕ :=
  (List.range d.teams.length).filter (fun i => i ≠ teamID)

/-- Embeds `itertools.combinations(l, 2)`: all pairs `(x, y)` with `x` occurring
before `y` in `l`, in lexicographic order of positions. -/
def pairsOf : List ℕ → List (ℕ × ℕ)
  | [] => []
  | x :: xs => (xs.map fun y => (x, y)) ++ pairsOf xs

/-- Total-function value of `self.teams[i].against[j]` (defaulting to `0`
outside its domain; used only to describe outputs of runs that succeeded). -/
def gaVal (d : Division) (i j : ℕ) : ℕ :=
  match d.teams[i]? with
  | some t => t.against.getD j 0
  | none => 0

/-- Embeds `Division.max_allowed`: `team1.wins + team1.remaining - team2.wins - 1`,
an integer that may be negative; fails like the dict accesses it performs. -/
def max_allowed (d : Division) (t1 t2 : ℕ) : Except Err ℤ := do
  let team1 ← lookupTeam d t1
  let team2 ← lookupTeam d t2
  pure ((team1.wins : ℤ) + (team1.remaining : ℤ) - (team2.wins : ℤ) - 1)

/-- Total-function value of `max_allowed` on valid IDs. -/
def maVal (d : Division) (t1 t2 : ℕ) : ℤ :=
  match d.teams[t1]?, d.teams[t2]? with
  | some team1, some team2 =>
      (team1.wins : ℤ) + (team1.remaining : ℤ) - (team2.wins : ℤ) - 1
  | _, _ => 0

/-- Nodes of the transient `networkx.DiGraph` built per query: source `S`,
sink `T`, one node per non-candidate team and one per unordered team pair. -/
inductive Node where
  | S
  | T
  | team (i : ℕ)
  | pair (i j : ℕ)
  deriving DecidableEq

/-- A directed edge of the graph with its optional `capacity` attribute
(edges added without `capacity=` have none). -/
structure Edge where
  src : Node
  dst : Node
  cap : Option ℤ
  deriving DecidableEq

/-- The first `create_network` loop: for each combination `pair`, look up
`self.teams[pair[0]].get_against(pair[1])` and record it in
`saturated_edges`; the first failing lookup propagates. -/
def satEdges (d : Division) : List (ℕ × ℕ) → Except Err (List ((ℕ × ℕ) × ℕ))
  | [] => Except.ok []
  | p :: ps => do
      let t ← lookupTeam d p.1
      let num ← t.get_against p.2
      let rest ← satEdges d ps
      pure ((p, num) :: rest)

/-- The third `create_network` loop: an edge `team → T` with capacity
`max_allowed(teamID, team)` for every remaining team, in order. -/
def sinkEdges (d : Division) (teamID : ℕ) : List ℕ → Except Err (List Edge)
  | [] => Except.ok []
  | i :: is => do
      let c ← max_allowed d teamID i
      let rest ← sinkEdges d teamID is
      pure (Edge.mk (Node.team i) Node.T (some c) :: rest)

/-- Embeds `Division.create_network` (with `show=False`; the matplotlib branch is
dead diagnostics): resets `self.G`, removes the candidate (`pop` raises
`KeyError` on a missing ID), then adds the three layers — `S → {i,j}` with
capacity `games_against(i, j)`, uncapacitated `{i,j} → i` and `{i,j} → j`,
and `i → T` with capacity `max_allowed(teamID, i)`.  Returns the graph it
stored in `self.G` together with `saturated_edges`. -/
def create_network (d : Division) (teamID : ℕ) :
    Except Err (List Edge × List ((ℕ × ℕ) × ℕ)) :=
  if teamID < d.teams.length then
    match satEdges d (pairsOf (remainingIDs d teamID)) with
    | Except.error e => Except.error e
    | Except.ok sat =>
      match sinkEdges d teamID (remainingIDs d teamID) with
      | Except.error e => Except.error e
      | Except.ok layer3 =>
          Except.ok
            ((sat.map fun pc =>
                Edge.mk Node.S (Node.pair pc.1.1 pc.1.2) (some (pc.2 : ℤ)))
              ++ (sat.flatMap fun pc =>
                [Edge.mk (Node.pair pc.1.1 pc.1.2) (Node.team pc.1.1) none,
                 Edge.mk (Node.pair pc.1.1 pc.1.2) (Node.team pc.1.2) none])
              ++ layer3,
             sat)
  else Except.error Err.notFound

/-- The node set of the graph: every endpoint of an edge (exactly the nodes
`nx.DiGraph.add_edge` inserted). -/
def nodes (G : List Edge) : List Node :=
  G.flatMap fun e => [e.src, e.dst]

/-- Whether some edge of the graph carries a negative `capacity` attribute
(the condition the LP solver scans for before solving). -/
def hasNegCap (G : List Edge) : Bool :=
  G.any fun e =>
    match e.cap with
    | some c => decide (c < 0)
    | none => false

/-- The `S → {i,j}` capacities of a built graph, keyed by pair. -/
def extractPairs (G : List Edge) : List ((ℕ × ℕ) × ℕ) :=
  G.filterMap fun e =>
    match e.src, e.dst, e.cap with
    | Node.S, Node.pair i j, some c => some ((i, j), c.toNat)
    | _, _, _ => none

/-- The `team → T` capacities of a built graph, keyed by team ID. -/
def extractSink (G : List Edge) : List (ℕ × ℤ) :=
  G.filterMap fun e =>
    match e.src, e.dst, e.cap with
    | Node.team i, Node.T, some c => some (i, c)
    | _, _, _ => none

/-- All splits `(a, b)` of at most `c` units between the two endpoints of a
pair node: flow entering a pair node equals the flow leaving it, so a flow
on the three-layer network is exactly such a split for every pair. -/
def subSplits (c : ℕ) : List (ℕ × ℕ) :=
  (List.range (c + 1)).flatMap fun s => (List.range (s + 1)).map fun a => (a, s - a)

/-- All integer flow candidates: one split per saturated edge, bounded by
the capacity limit of that edge. -/
def assignments : List ((ℕ × ℕ) × ℕ) → List (List (ℕ × ℕ))
  | [] => [[]]
  | pc :: rest =>
      (subSplits pc.2).flatMap fun ab => (assignments rest).map fun v => ab :: v

/-- Total flow a candidate assignment routes into team node `i`. -/
def inflow (sat : List ((ℕ × ℕ) × ℕ)) (a : List (ℕ × ℕ)) (i : ℕ) : ℕ :=
  ((sat.zip a).map fun pcv =>
      (if pcv.1.1.1 = i then pcv.2.1 else 0) +
      (if pcv.1.1.2 = i then pcv.2.2 else 0)).sum

/-- Whether an assignment respects every sink capacity `team → T`. -/
def feasibleFor (w : List (ℕ × ℤ)) (sat : List ((ℕ × ℕ) × ℕ))
    (a : List (ℕ × ℕ)) : Bool :=
  w.all fun ic => decide ((inflow sat a ic.1 : ℤ) ≤ ic.2)

/-- The value of a flow candidate: total flow out of `S`. -/
def flowValue (a : List (ℕ × ℕ)) : ℕ :=
  (a.map fun xy => xy.1 + xy.2).sum

/-- Maximum value over all feasible integer assignments: the maximum
`S → T` flow of the three-layer network with the given pair capacities and
sink capacities (integral capacities admit an integral maximum flow, so
this is the value `networkx.maximum_flow` returns). -/
def maxFlow (sat : List ((ℕ × ℕ) × ℕ)) (w : List (ℕ × ℤ)) : ℕ :=
  (((assignments sat).filter (feasibleFor w sat)).map flowValue).foldr max 0

/-- The maximum flow of a built graph, read off from its edge capacities. -/
def maxFlowNet (G : List Edge) : ℕ :=
  maxFlow (extractPairs G) (extractSink G)

/-- Embeds `games_remaining = sum(saturated_edges.values())`. -/
def games_remaining (sat : List ((ℕ × ℕ) × ℕ)) : ℕ :=
  (sat.map fun pc => pc.2).sum

/-- The Python `abs` on an exact rational, written so that it evaluates. -/
def ratAbs (q : ℚ) : ℚ :=
  if q < 0 then -q else q

/-- Embeds `Division.network_flows`: `nx.algorithms.flow.maximum_flow(self.G, 'S',
'T')`, then `False if max_flow == games_remaining else True`.  The library
raises `NetworkXError` when `'S'` or `'T'` is not a node of the graph; its
behaviour on a graph with a negative `capacity` attribute is undocumented
and is modelled as an unspecified failure rather than any verdict. -/
def network_flows (G : List Edge) (saturated_edges : List ((ℕ × ℕ) × ℕ)) :
    Except Err Bool :=
  if Node.S ∈ nodes G ∧ Node.T ∈ nodes G then
    if hasNegCap G then Except.error Err.unspecified
    else Except.ok (decide (maxFlowNet G ≠ games_remaining saturated_edges))
  else Except.error Err.graphErr

/-- Embeds `Division.linear_programming`, instrumented with whether the
`maxflow.solve` call was reached (second component).  Faithful order of
effects: first the capacity scan, which returns `True` as soon as a negative
capacity is seen, before any solving; then the constraint construction,
whose only failing step is `self.G.successors('S')`, which raises
`NetworkXError` when `'S'` is not a node; then the `cvxopt` solve, modelled
as returning the exact optimum of the max-flow linear program — for the
integral capacities at hand that optimum is the integral maximum flow — and
finally the verdict `not (abs(flow - games_remaining) < 0.1)`. -/
def linear_programming_t (G : List Edge)
    (saturated_edges : List ((ℕ × ℕ) × ℕ)) : Except Err (Bool × Bool) :=
  if hasNegCap G then Except.ok (true, false)
  else if Node.S ∈ nodes G then
    Except.ok
      (decide (¬ (ratAbs ((maxFlowNet G : ℚ)
          - (games_remaining saturated_edges : ℚ)) < 1 / 10)), true)
  else Except.error Err.graphErr

/-- Embeds `Division.linear_programming` proper: the verdict alone. -/
def linear_programming (G : List Edge)
    (saturated_edges : List ((ℕ × ℕ) × ℕ)) : Except Err Bool :=
  (linear_programming_t G saturated_edges).map fun bs => bs.1

/-- The solver-string dispatched on by `is_eliminated`. -/
def nfStr : String := "Network Flows"

/-- The other solver-string dispatched on by `is_eliminated`. -/
def lpStr : String := "Linear Programming"

/-- Which pieces of work a run of `is_eliminated` performed: whether
`create_network` ran, whether `network_flows` was called, whether
`linear_programming` was called, and whether the latter reached its
`maxflow.solve` step. -/
structure CallTrace where
  networkBuilt : Bool
  nfCalled : Bool
  lpCalled : Bool
  lpSolved : Bool
  deriving DecidableEq

/-- The `flag1` pre-check loop of `is_eliminated`: the wins of some other team
strictly exceed `team.wins + team.remaining`. -/
def trivialFlag (d : Division) (team : Team) (teamID : ℕ) : Bool :=
  (remainingIDs d teamID).any fun i =>
    match d.teams[i]? with
    | some other_team => decide (team.wins + team.remaining < other_team.wins)
    | none => false

/-- Embeds `Division.is_eliminated`, instrumented with a `CallTrace`.  Faithful
control flow: `self.teams[teamID]` first (KeyError on a missing key), then
the `flag1` loop, then — unconditionally — `create_network`, and only then,
if `flag1` is still false, dispatch on the exact solver strings
`"Network Flows"` / `"Linear Programming"`; any other string falls through
and the initial `False` is returned. -/
def is_eliminated_t (d : Division) (teamID : ℕ) (solver : String) :
    Except Err (Bool × CallTrace) :=
  match d.teams[teamID]? with
  | none => Except.error Err.notFound
  | some team =>
    match create_network d teamID with
    | Except.error e => Except.error e
    | Except.ok (G, saturated_edges) =>
      if trivialFlag d team teamID then
        Except.ok (true, CallTrace.mk true false false false)
      else if solver = nfStr then
        match network_flows G saturated_edges with
        | Except.error e => Except.error e
        | Except.ok b => Except.ok (b, CallTrace.mk true true false false)
      else if solver = lpStr then
        match linear_programming_t G saturated_edges with
        | Except.error e => Except.error e
        | Except.ok bs => Except.ok (bs.1, CallTrace.mk true false true bs.2)
      else Except.ok (false, CallTrace.mk true false false false)

/-- Embeds `Division.is_eliminated` proper: the boolean verdict alone. -/
def is_eliminated (d : Division) (teamID : ℕ) (solver : String) :
    Except Err Bool :=
  (is_eliminated_t d teamID solver).map fun bt => bt.1

/-- Well-formed registry: the `against` row of every team covers every team ID,
as `readDivision` produces from a well-formed input table. -/
def Wf (d : Division) : Prop :=
  ∀ t ∈ d.teams, d.teams.length ≤ t.against.length

instance (d : Division) : Decidable (Wf d) :=
  List.decidableBAll _ d.teams

/-- The saturated-edges map a successful `create_network` run returns:
every combination of two non-candidate IDs, keyed in combination order,
valued by the head-to-head count `self.teams[i].against[j]`. -/
def satStd (d : Division) (teamID : ℕ) : List ((ℕ × ℕ) × ℕ) :=
  (pairsOf (remainingIDs d teamID)).map fun p => (p, gaVal d p.1 p.2)

/-- The graph a successful `create_network` run stores in `self.G`:
the three layers in insertion order. -/
def gStd (d : Division) (teamID : ℕ) : List Edge :=
  ((satStd d teamID).map fun pc =>
      Edge.mk Node.S (Node.pair pc.1.1 pc.1.2) (some (pc.2 : ℤ)))
    ++ ((satStd d teamID).flatMap fun pc =>
      [Edge.mk (Node.pair pc.1.1 pc.1.2) (Node.team pc.1.1) none,
       Edge.mk (Node.pair pc.1.1 pc.1.2) (Node.team pc.1.2) none])
    ++ ((remainingIDs d teamID).map fun i =>
      Edge.mk (Node.team i) Node.T (some (maVal d teamID i)))

/-- Two-team tie division from the concrete scenario of the spec:
`A(wins=5, rem=0)` and `B(wins=5, rem=0)`, no games left. -/
def dTie : Division :=
  ⟨[⟨0, "A", 5, 0, 0, [0, 0]⟩, ⟨1, "B", 5, 0, 0, [0, 0]⟩]⟩

/-- Two-team division where team `1` trivially eliminates team `0`
(`5 > 0 + 0`). -/
def dTriv : Division :=
  ⟨[⟨0, "A", 0, 0, 0, [0, 0]⟩, ⟨1, "B", 5, 0, 0, [0, 0]⟩]⟩

/-- Three-team division where candidate `0` has a negative sink capacity
against team `1` (`5 + 1 - 6 - 1 = -1`) while the trivial pre-check does not
fire (`6 = 5 + 1`, not strictly greater). -/
def dNeg : Division :=
  ⟨[⟨0, "A", 5, 0, 1, [0, 1, 0]⟩, ⟨1, "B", 6, 0, 3, [1, 0, 2]⟩,
    ⟨2, "C", 0, 0, 2, [0, 2, 0]⟩]⟩

/-- Three-team division whose candidate-`0` network has only non-negative
capacities: sink capacities `3 + 2 - 1 - 1 = 3` for both other teams and one
remaining game between them. -/
def dOk : Division :=
  ⟨[⟨0, "A", 3, 0, 2, [0, 1, 1]⟩, ⟨1, "B", 1, 0, 2, [1, 0, 1]⟩,
    ⟨2, "C", 1, 0, 2, [1, 1, 0]⟩]⟩

/-- The graph `create_network` builds for `dOk` and candidate `0`. -/
def gOk : List Edge :=
  [Edge.mk Node.S (Node.pair 1 2) (some 1),
   Edge.mk (Node.pair 1 2) (Node.team 1) none,
   Edge.mk (Node.pair 1 2) (Node.team 2) none,
   Edge.mk (Node.team 1) Node.T (some 3),
   Edge.mk (Node.team 2) Node.T (some 3)]

/-- The saturated-edges map `create_network` returns for `dOk`,
candidate `0`. -/
def satOk : List ((ℕ × ℕ) × ℕ) := [((1, 2), 1)]

/-- The graph `create_network` builds for `dNeg` and candidate `0`; the
sink edge of team `1` carries capacity `-1`. -/
def gNeg : List Edge :=
  [Edge.mk Node.S (Node.pair 1 2) (some 2),
   Edge.mk (Node.pair 1 2) (Node.team 1) none,
   Edge.mk (Node.pair 1 2) (Node.team 2) none,
   Edge.mk (Node.team 1) Node.T (some (-1)),
   Edge.mk (Node.team 2) Node.T (some 5)]

/-- The saturated-edges map `create_network` returns for `dNeg`,
candidate `0`. -/
def satNeg : List ((ℕ × ℕ) × ℕ) := [((1, 2), 2)]

/-- Two-team division with a game left and non-negative capacities for
candidate `0` (`5 + 1 - 3 - 1 = 2`). -/
def dTwo : Division :=
  ⟨[⟨0, "A", 5, 0, 1, [0, 1]⟩, ⟨1, "B", 3, 0, 1, [1, 0]⟩]⟩

/-- The graph `create_network` builds for `dTwo` and candidate `0`: a single
sink edge, no source node. -/
def gTwo : List Edge := [Edge.mk (Node.team 1) Node.T (some 2)]


theorem pairsOf_cons (x : ℕ) (xs : List ℕ) :
    pairsOf (x :: xs) = (xs.map fun y => (x, y)) ++ pairsOf xs := rfl

theorem mem_of_mem_pairsOf {l : List ℕ} {i j : ℕ}
    (h : (i, j) ∈ pairsOf l) : i ∈ l ∧ j ∈ l := by
  induction l with
  | nil => simp [pairsOf] at h
  | cons x xs ih =>
      rw [pairsOf_cons, List.mem_append] at h
      rcases h with h | h
      · rcases List.mem_map.mp h with ⟨y, hy, hxy⟩
        cases hxy
        exact ⟨List.mem_cons_self .., List.mem_cons_of_mem _ hy⟩
      · rcases ih h with ⟨hi, hj⟩
        exact ⟨List.mem_cons_of_mem _ hi, List.mem_cons_of_mem _ hj⟩

theorem mem_pairsOf_iff {l : List ℕ} (hl : l.Pairwise (· < ·)) {i j : ℕ} :
    (i, j) ∈ pairsOf l ↔ i ∈ l ∧ j ∈ l ∧ i < j := by
  induction l with
  | nil => simp [pairsOf]
  | cons x xs ih =>
      rw [List.pairwise_cons] at hl
      rw [pairsOf_cons, List.mem_append]
      constructor
      · rintro (h | h)
        · rcases List.mem_map.mp h with ⟨y, hy, hxy⟩
          cases hxy
          exact ⟨List.mem_cons_self .., List.mem_cons_of_mem _ hy, hl.1 _ hy⟩
        · rcases (ih hl.2).mp h with ⟨hi, hj, hij⟩
          exact ⟨List.mem_cons_of_mem _ hi, List.mem_cons_of_mem _ hj, hij⟩
      · rintro ⟨hi, hj, hij⟩
        rcases List.mem_cons.mp hi with hix | hi2
        · subst hix
          rcases List.mem_cons.mp hj with hjx | hj2
          · exact absurd (hjx ▸ hij) (lt_irrefl _)
          · exact Or.inl (List.mem_map.mpr ⟨j, hj2, rfl⟩)
        · rcases List.mem_cons.mp hj with hjx | hj2
          · subst hjx
            exact absurd (lt_trans (hl.1 i hi2) hij) (lt_irrefl _)
          · exact Or.inr ((ih hl.2).mpr ⟨hi2, hj2, hij⟩)

theorem pairsOf_nodup {l : List ℕ} (hl : l.Pairwise (· < ·)) :
    (pairsOf l).Nodup := by
  induction l with
  | nil => simp [pairsOf]
  | cons x xs ih =>
      rw [List.pairwise_cons] at hl
      rw [pairsOf_cons]
      refine List.Nodup.append ?_ (ih hl.2) ?_
      · exact List.Nodup.map (fun a b h => congrArg Prod.snd h)
          (hl.2.imp fun h => ne_of_lt h)
      · intro p hp hp2
        rcases List.mem_map.mp hp with ⟨y, _, hxy⟩
        rcases mem_of_mem_pairsOf hp2 with ⟨hi, _⟩
        cases hxy
        exact absurd (hl.1 x hi) (lt_irrefl x)

theorem pairsOf_ne_nil {l : List ℕ} (h : 2 ≤ l.length) : pairsOf l ≠ [] := by
  match l with
  | x :: y :: xs => simp [pairsOf_cons]

theorem remainingIDs_pairwise (d : Division) (teamID : ℕ) :
    (remainingIDs d teamID).Pairwise (· < ·) :=
  List.Pairwise.sublist (List.filter_sublist _) (List.pairwise_lt_range _)

theorem mem_remainingIDs {d : Division} {teamID i : ℕ} :
    i ∈ remainingIDs d teamID ↔ i < d.teams.length ∧ i ≠ teamID := by
  simp [remainingIDs, List.mem_filter, List.mem_range]

theorem length_remainingIDs {n t : ℕ} (h : t < n) :
    ((List.range n).filter (fun i => i ≠ t)).length = n - 1 := by
  induction n with
  | zero => exact absurd h (Nat.not_lt_zero t)
  | succ n ih =>
      rw [List.range_succ, List.filter_append, List.length_append]
      by_cases hnt : n = t
      · subst hnt
        have h1 : List.filter (fun i => decide (i ≠ n)) (List.range n)
            = List.range n :=
          List.filter_eq_self.mpr fun x hx =>
            decide_eq_true (Nat.ne_of_lt (List.mem_range.mp hx))
        have h2 : List.filter (fun i => decide (i ≠ n)) [n] = [] := by simp
        rw [h1, h2]
        simp
      · have h2 : List.filter (fun i => decide (i ≠ t)) [n] = [n] := by
          simp [hnt]
        rw [ih (by omega), h2]
        simp
        omega

theorem remainingIDs_length {d : Division} {teamID : ℕ}
    (h : teamID < d.teams.length) :
    (remainingIDs d teamID).length = d.teams.length - 1 :=
  length_remainingIDs h

theorem satEdges_ok {d : Division} (hW : Wf d) {P : List (ℕ × ℕ)}
    (hP : ∀ p ∈ P, p.1 < d.teams.length ∧ p.2 < d.teams.length) :
    satEdges d P = Except.ok (P.map fun p => (p, gaVal d p.1 p.2)) := by
  induction P with
  | nil => rfl
  | cons p ps ih =>
      obtain ⟨h1, h2⟩ := hP p (List.mem_cons_self ..)
      have ht : d.teams[p.1]? = some d.teams[p.1] := List.getElem?_eq_getElem h1
      have hmem : d.teams[p.1] ∈ d.teams := List.getElem_mem h1
      have hlen : p.2 < (d.teams[p.1]).against.length :=
        lt_of_lt_of_le h2 (hW _ hmem)
      have ha : (d.teams[p.1]).against[p.2]?
          = some ((d.teams[p.1]).against[p.2]) := List.getElem?_eq_getElem hlen
      have ih2 := ih fun q hq => hP q (List.mem_cons_of_mem _ hq)
      simp [satEdges, lookupTeam, ht, Team.get_against, ha, ih2, gaVal,
        List.getD_eq_getElem?_getD, Bind.bind, Except.bind, Pure.pure,
        Except.pure]

theorem sinkEdges_ok {d : Division} {teamID : ℕ} (ht : teamID < d.teams.length)
    {L : List ℕ} (hL : ∀ i ∈ L, i < d.teams.length) :
    sinkEdges d teamID L = Except.ok (L.map fun i =>
      Edge.mk (Node.team i) Node.T (some (maVal d teamID i))) := by
  induction L with
  | nil => rfl
  | cons i is ih =>
      have h1 := hL i (List.mem_cons_self ..)
      have e1 : d.teams[teamID]? = some d.teams[teamID] :=
        List.getElem?_eq_getElem ht
      have e2 : d.teams[i]? = some d.teams[i] := List.getElem?_eq_getElem h1
      have ih2 := ih fun j hj => hL j (List.mem_cons_of_mem _ hj)
      simp [sinkEdges, max_allowed, lookupTeam, e1, e2, maVal, ih2,
        Bind.bind, Except.bind, Pure.pure, Except.pure]

theorem create_network_ok {d : Division} {teamID : ℕ} (hW : Wf d)
    (ht : teamID < d.teams.length) :
    create_network d teamID = Except.ok (gStd d teamID, satStd d teamID) := by
  have hmem : ∀ p ∈ pairsOf (remainingIDs d teamID),
      p.1 < d.teams.length ∧ p.2 < d.teams.length := by
    intro p hp
    have h2 := mem_of_mem_pairsOf (show (p.1, p.2) ∈ _ from hp)
    exact ⟨(mem_remainingIDs.mp h2.1).1, (mem_remainingIDs.mp h2.2).1⟩
  have hL : ∀ i ∈ remainingIDs d teamID, i < d.teams.length :=
    fun i hi => (mem_remainingIDs.mp hi).1
  rw [create_network, if_pos ht, satEdges_ok hW hmem, sinkEdges_ok ht hL]
  rfl

theorem create_network_lt {d : Division} {teamID : ℕ}
    {G : List Edge} {sat : List ((ℕ × ℕ) × ℕ)}
    (h : create_network d teamID = Except.ok (G, sat)) :
    teamID < d.teams.length := by
  by_contra hlt
  rw [create_network, if_neg hlt] at h
  exact Except.noConfusion h

theorem create_network_eq {d : Division} {teamID : ℕ}
    {G : List Edge} {sat : List ((ℕ × ℕ) × ℕ)} (hW : Wf d)
    (h : create_network d teamID = Except.ok (G, sat)) :
    G = gStd d teamID ∧ sat = satStd d teamID := by
  have h2 := (create_network_ok hW (create_network_lt h)).symm.trans h
  simp only [Except.ok.injEq, Prod.mk.injEq] at h2
  exact ⟨h2.1.symm, h2.2.symm⟩

theorem extractPairs_append (A B : List Edge) :
    extractPairs (A ++ B) = extractPairs A ++ extractPairs B := by
  simp [extractPairs, List.filterMap_append]

theorem extractPairs_layer1 (s : List ((ℕ × ℕ) × ℕ)) :
    extractPairs (s.map fun pc =>
      Edge.mk Node.S (Node.pair pc.1.1 pc.1.2) (some (pc.2 : ℤ))) = s := by
  induction s with
  | nil => rfl
  | cons pc rest ih =>
      simp only [List.map_cons, extractPairs, List.filterMap_cons] at ih ⊢
      simp [ih]

theorem extractPairs_layer2 (s : List ((ℕ × ℕ) × ℕ)) :
    extractPairs (s.flatMap fun pc =>
      [Edge.mk (Node.pair pc.1.1 pc.1.2) (Node.team pc.1.1) none,
       Edge.mk (Node.pair pc.1.1 pc.1.2) (Node.team pc.1.2) none]) = [] := by
  induction s with
  | nil => rfl
  | cons pc rest ih =>
      simp only [List.flatMap_cons, extractPairs, List.filterMap_append,
        List.filterMap_cons] at ih ⊢
      simp [ih]

theorem extractPairs_layer3 (f : ℕ → ℤ) (L : List ℕ) :
    extractPairs (L.map fun i =>
      Edge.mk (Node.team i) Node.T (some (f i))) = [] := by
  induction L with
  | nil => rfl
  | cons i is ih =>
      simp only [List.map_cons, extractPairs, List.filterMap_cons] at ih ⊢
      simp [ih]

theorem extractPairs_gStd (d : Division) (teamID : ℕ) :
    extractPairs (gStd d teamID) = satStd d teamID := by
  rw [gStd, extractPairs_append, extractPairs_append, extractPairs_layer1,
    extractPairs_layer2, extractPairs_layer3]
  simp

theorem subSplits_le {c : ℕ} {ab : ℕ × ℕ} (h : ab ∈ subSplits c) :
    ab.1 + ab.2 ≤ c := by
  rw [subSplits, List.mem_flatMap] at h
  rcases h with ⟨s, hs, hab⟩
  rcases List.mem_map.mp hab with ⟨a, ha, rfl⟩
  have h1 := List.mem_range.mp hs
  have h2 := List.mem_range.mp ha
  simp only
  omega

theorem assignments_value_le {sat : List ((ℕ × ℕ) × ℕ)} {a : List (ℕ × ℕ)}
    (h : a ∈ assignments sat) : flowValue a ≤ games_remaining sat := by
  induction sat generalizing a with
  | nil =>
      simp only [assignments, List.mem_singleton] at h
      subst h
      simp [flowValue, games_remaining]
  | cons pc rest ih =>
      rw [assignments, List.mem_flatMap] at h
      rcases h with ⟨ab, hab, hmem⟩
      rcases List.mem_map.mp hmem with ⟨v, hv, rfl⟩
      have h1 := subSplits_le hab
      have h2 := ih hv
      simp only [flowValue, games_remaining, List.map_cons, List.sum_cons] at h2 ⊢
      omega

theorem foldr_max_le {L : List ℕ} {B : ℕ} (h : ∀ x ∈ L, x ≤ B) :
    L.foldr max 0 ≤ B := by
  induction L with
  | nil => exact Nat.zero_le B
  | cons x xs ih =>
      simp only [List.foldr_cons]
      exact max_le (h x (List.mem_cons_self ..))
        (ih fun y hy => h y (List.mem_cons_of_mem _ hy))

theorem maxFlow_le (sat : List ((ℕ × ℕ) × ℕ)) (w : List (ℕ × ℤ)) :
    maxFlow sat w ≤ games_remaining sat := by
  rw [maxFlow]
  apply foldr_max_le
  intro x hx
  rcases List.mem_map.mp hx with ⟨a, ha, rfl⟩
  exact assignments_value_le (List.mem_filter.mp ha).1

theorem maxFlowNet_gStd_le (d : Division) (teamID : ℕ) :
    maxFlowNet (gStd d teamID) ≤ games_remaining (satStd d teamID) := by
  rw [maxFlowNet, extractPairs_gStd]
  exact maxFlow_le _ _

theorem satStd_ne_nil {d : Division} {teamID : ℕ}
    (h3 : 3 ≤ d.teams.length) (ht : teamID < d.teams.length) :
    satStd d teamID ≠ [] := by
  have h2 : 2 ≤ (remainingIDs d teamID).length := by
    rw [remainingIDs_length ht]
    omega
  rw [satStd]
  simp only [ne_eq, List.map_eq_nil_iff]
  exact pairsOf_ne_nil h2

theorem remainingIDs_ne_nil {d : Division} {teamID : ℕ}
    (h3 : 3 ≤ d.teams.length) (ht : teamID < d.teams.length) :
    remainingIDs d teamID ≠ [] := by
  have h2 : 2 ≤ (remainingIDs d teamID).length := by
    rw [remainingIDs_length ht]
    omega
  intro hnil
  rw [hnil] at h2
  simp at h2

theorem sink_edge_mem_gStd {d : Division} {teamID i : ℕ}
    (hi : i ∈ remainingIDs d teamID) :
    Edge.mk (Node.team i) Node.T (some (maVal d teamID i)) ∈ gStd d teamID := by
  rw [gStd]
  exact List.mem_append.mpr (Or.inr (List.mem_map.mpr ⟨i, hi, rfl⟩))

theorem S_mem_nodes_gStd {d : Division} {teamID : ℕ}
    (h : satStd d teamID ≠ []) : Node.S ∈ nodes (gStd d teamID) := by
  rcases List.exists_cons_of_ne_nil h with ⟨pc, s, hs⟩
  have hmem : pc ∈ satStd d teamID := by
    rw [hs]
    exact List.mem_cons_self ..
  refine List.mem_flatMap.mpr
    ⟨Edge.mk Node.S (Node.pair pc.1.1 pc.1.2) (some (pc.2 : ℤ)), ?_, ?_⟩
  · rw [gStd]
    exact List.mem_append.mpr (Or.inl (List.mem_append.mpr
      (Or.inl (List.mem_map.mpr ⟨pc, hmem, rfl⟩))))
  · simp

theorem T_mem_nodes_gStd {d : Division} {teamID : ℕ}
    (h : remainingIDs d teamID ≠ []) : Node.T ∈ nodes (gStd d teamID) := by
  rcases List.exists_cons_of_ne_nil h with ⟨i, is, hs⟩
  refine List.mem_flatMap.mpr
    ⟨Edge.mk (Node.team i) Node.T (some (maVal d teamID i)), ?_, ?_⟩
  · exact sink_edge_mem_gStd (by rw [hs]; exact List.mem_cons_self ..)
  · simp

theorem cap_nonneg_of_not_negCap {G : List Edge} (h : hasNegCap G = false)
    {e : Edge} (he : e ∈ G) {c : ℤ} (hc : e.cap = some c) : 0 ≤ c := by
  rw [hasNegCap, List.any_eq_false] at h
  have h2 := h e he
  rw [hc] at h2
  simp only [decide_eq_true_eq] at h2
  omega

theorem trivialFlag_false_of_nonneg {d : Division} {team : Team} {teamID : ℕ}
    (hteam : d.teams[teamID]? = some team)
    (hpos : ∀ i ∈ remainingIDs d teamID, 0 ≤ maVal d teamID i) :
    trivialFlag d team teamID = false := by
  rw [trivialFlag, List.any_eq_false]
  intro i hi
  have h1 : i < d.teams.length := (mem_remainingIDs.mp hi).1
  have e2 : d.teams[i]? = some d.teams[i] := List.getElem?_eq_getElem h1
  have h2 := hpos i hi
  simp only [maVal, hteam, e2] at h2
  rw [e2]
  simp only [decide_eq_true_eq]
  omega

theorem ratAbs_eq_abs (q : ℚ) : ratAbs q = |q| := by
  rw [ratAbs]
  by_cases h : q < 0
  · rw [if_pos h, abs_of_neg h]
  · rw [if_neg h, abs_of_nonneg (le_of_not_lt h)]

theorem ratAbs_lt_tenth_iff (a b : ℕ) :
    (ratAbs ((a : ℚ) - (b : ℚ)) < 1 / 10) ↔ a = b := by
  rw [ratAbs_eq_abs]
  constructor
  · intro h
    by_contra hab
    have hz : ((a : ℤ) - b) ≠ 0 := sub_ne_zero.mpr (by exact_mod_cast hab)
    have h1 : (1 : ℤ) ≤ |(a : ℤ) - b| := Int.one_le_abs hz
    have h2 : (1 : ℚ) ≤ |(a : ℚ) - b| := by
      have h3 : ((1 : ℤ) : ℚ) ≤ ((|(a : ℤ) - b| : ℤ) : ℚ) :=
        Int.cast_le.mpr h1
      push_cast at h3
      simpa using h3
    linarith
  · intro h
    subst h
    norm_num

theorem network_flows_eval {G : List Edge} {sat : List ((ℕ × ℕ) × ℕ)}
    (hS : Node.S ∈ nodes G) (hT : Node.T ∈ nodes G)
    (hneg : hasNegCap G = false) :
    network_flows G sat
      = Except.ok (decide (maxFlowNet G ≠ games_remaining sat)) := by
  rw [network_flows, if_pos ⟨hS, hT⟩, hneg]
  rfl

theorem linear_programming_t_eval {G : List Edge} {sat : List ((ℕ × ℕ) × ℕ)}
    (hneg : hasNegCap G = false) (hS : Node.S ∈ nodes G) :
    linear_programming_t G sat
      = Except.ok (decide (maxFlowNet G ≠ games_remaining sat), true) := by
  rw [linear_programming_t, hneg]
  simp only [Bool.false_eq_true, if_false, if_pos hS, Except.ok.injEq,
    Prod.mk.injEq, and_true]
  rw [decide_eq_decide]
  exact not_congr (ratAbs_lt_tenth_iff _ _)

theorem is_eliminated_t_run {d : Division} {teamID : ℕ} {team : Team}
    (hW : Wf d) (hteam : d.teams[teamID]? = some team) (s : String) :
    is_eliminated_t d teamID s =
      if trivialFlag d team teamID then
        Except.ok (true, CallTrace.mk true false false false)
      else if s = nfStr then
        match network_flows (gStd d teamID) (satStd d teamID) with
        | Except.error e => Except.error e
        | Except.ok b => Except.ok (b, CallTrace.mk true true false false)
      else if s = lpStr then
        match linear_programming_t (gStd d teamID) (satStd d teamID) with
        | Except.error e => Except.error e
        | Except.ok bs => Except.ok (bs.1, CallTrace.mk true false true bs.2)
      else Except.ok (false, CallTrace.mk true false false false) := by
  obtain ⟨ht, -⟩ := List.getElem?_eq_some.mp hteam
  rw [is_eliminated_t, hteam, create_network_ok hW ht]

theorem network_flows_error_kind {G : List Edge} {sat : List ((ℕ × ℕ) × ℕ)}
    {e : Err} (h : network_flows G sat = Except.error e) :
    e = Err.graphErr ∨ e = Err.unspecified := by
  rw [network_flows] at h
  by_cases hST : Node.S ∈ nodes G ∧ Node.T ∈ nodes G
  · rw [if_pos hST] at h
    cases hn : hasNegCap G with
    | true =>
        rw [hn] at h
        simp only [if_true] at h
        exact Or.inr (Except.error.inj h).symm
    | false =>
        rw [hn] at h
        simp only [Bool.false_eq_true, if_false] at h
        exact Except.noConfusion h
  · rw [if_neg hST] at h
    exact Or.inl (Except.error.inj h).symm

theorem linear_programming_t_error_kind {G : List Edge}
    {sat : List ((ℕ × ℕ) × ℕ)} {e : Err}
    (h : linear_programming_t G sat = Except.error e) : e = Err.graphErr := by
  rw [linear_programming_t] at h
  cases hn : hasNegCap G with
  | true =>
      rw [hn] at h
      simp only [if_true] at h
      exact Except.noConfusion h
  | false =>
      rw [hn] at h
      simp only [Bool.false_eq_true, if_false] at h
      by_cases hS : Node.S ∈ nodes G
      · rw [if_pos hS] at h
        exact Except.noConfusion h
      · rw [if_neg hS] at h
        exact (Except.error.inj h).symm

/-- Claim C1 (corrected; agreement law): for every well-formed division with
at least three teams whose candidate network carries no negative capacity,
`is_eliminated` under the network-flow solver and under the
linear-programming solver return the same verdict.  (As stated over all
valid divisions the law fails: see the counterexample, where the LP path
answers `true` while the flow path fails because the two-team network has no
source node.) -/
theorem c1_agreement {d : Division} {teamID : ℕ} {G : List Edge}
    {sat : List ((ℕ × ℕ) × ℕ)} (hW : Wf d) (h3 : 3 ≤ d.teams.length)
    (hc : create_network d teamID = Except.ok (G, sat))
    (hneg : hasNegCap G = false) :
    is_eliminated d teamID nfStr = is_eliminated d teamID lpStr := by
  have ht := create_network_lt hc
  obtain ⟨hG, hsat⟩ := create_network_eq hW hc
  subst hG
  subst hsat
  have hteam : d.teams[teamID]? = some d.teams[teamID] :=
    List.getElem?_eq_getElem ht
  have hpos : ∀ i ∈ remainingIDs d teamID, 0 ≤ maVal d teamID i :=
    fun i hi => cap_nonneg_of_not_negCap hneg (sink_edge_mem_gStd hi) rfl
  have hflag := trivialFlag_false_of_nonneg hteam hpos
  have hS := S_mem_nodes_gStd (satStd_ne_nil h3 ht)
  have hT := T_mem_nodes_gStd (remainingIDs_ne_nil h3 ht)
  rw [is_eliminated, is_eliminated, is_eliminated_t_run hW hteam nfStr,
    is_eliminated_t_run hW hteam lpStr, hflag,
    network_flows_eval hS hT hneg, linear_programming_t_eval hneg hS]
  simp [nfStr, lpStr, Except.map]

/-- Counterexample to claim C1 as stated: in the two-team tie from the spec, which is a valid
division the LP method returns eliminated while the flow method fails (the
built network has no `S` node), so the two calls do not return the same
verdict. -/
theorem c1_counterexample :
    is_eliminated dTie 0 nfStr ≠ is_eliminated dTie 0 lpStr := by
  intro h
  rw [show is_eliminated dTie 0 nfStr = Except.error Err.graphErr from rfl,
    show is_eliminated dTie 0 lpStr = Except.ok true from rfl] at h
  exact Except.noConfusion h

theorem c1_witness : is_eliminated dOk 0 nfStr = is_eliminated dOk 0 lpStr :=
  @c1_agreement dOk 0 gOk satOk (by decide) (by decide) rfl rfl

/-- Claim C2 (corrected): on a built network that has both `S` and `T` (at
least three teams) and no negative capacity, `network_flows` answers `false`
exactly when the maximum flow equals the total of the saturated edges and
`true` exactly when it is strictly smaller.  (As stated over every built
network the claim fails: with two teams the solver raises instead of
returning `false`; see the counterexample.) -/
theorem c2_verdict {d : Division} {teamID : ℕ} {G : List Edge}
    {sat : List ((ℕ × ℕ) × ℕ)} (hW : Wf d) (h3 : 3 ≤ d.teams.length)
    (hc : create_network d teamID = Except.ok (G, sat))
    (hneg : hasNegCap G = false) :
    (network_flows G sat = Except.ok false
      ↔ maxFlowNet G = games_remaining sat) ∧
    (network_flows G sat = Except.ok true
      ↔ maxFlowNet G < games_remaining sat) := by
  have ht := create_network_lt hc
  obtain ⟨hG, hsat⟩ := create_network_eq hW hc
  subst hG
  subst hsat
  have hS := S_mem_nodes_gStd (satStd_ne_nil h3 ht)
  have hT := T_mem_nodes_gStd (remainingIDs_ne_nil h3 ht)
  rw [network_flows_eval hS hT hneg]
  have hle := maxFlowNet_gStd_le d teamID
  constructor
  · constructor
    · intro h
      have h2 := Except.ok.inj h
      simpa using h2
    · intro h
      simp [h]
  · constructor
    · intro h
      have h2 := Except.ok.inj h
      simp only [decide_eq_true_eq] at h2
      omega
    · intro h
      have h2 : maxFlowNet (gStd d teamID)
          ≠ games_remaining (satStd d teamID) := by omega
      simp [h2]

/-- Counterexample to claim C2 as stated: for the two-team division `dTwo`
the built network has maximum flow equal to the total remaining games
(both are zero), yet `network_flows` does not return `false` — it fails
because `S` is not a node of the graph. -/
theorem c2_counterexample :
    create_network dTwo 0 = Except.ok (gTwo, []) ∧
    maxFlowNet gTwo = games_remaining [] ∧
    network_flows gTwo [] ≠ Except.ok false := by
  refine ⟨rfl, rfl, ?_⟩
  intro h
  rw [show network_flows gTwo [] = Except.error Err.graphErr from rfl] at h
  exact Except.noConfusion h

theorem c2_witness :
    (network_flows gOk satOk = Except.ok false
      ↔ maxFlowNet gOk = games_remaining satOk) ∧
    (network_flows gOk satOk = Except.ok true
      ↔ maxFlowNet gOk < games_remaining satOk) :=
  @c2_verdict dOk 0 gOk satOk (by decide) (by decide) rfl rfl

/-- Claim C6 (confirmed): the maximum flow the network-flow solver computes
on a built network (no negative sink capacities) never exceeds the sum of
the saturated-edge values. -/
theorem c6_saturation {d : Division} {teamID : ℕ} {G : List Edge}
    {sat : List ((ℕ × ℕ) × ℕ)} (hW : Wf d)
    (hc : create_network d teamID = Except.ok (G, sat))
    (hneg : hasNegCap G = false) :
    maxFlowNet G ≤ games_remaining sat := by
  obtain ⟨hG, hsat⟩ := create_network_eq hW hc
  subst hG
  subst hsat
  exact maxFlowNet_gStd_le d teamID

theorem c6_witness : maxFlowNet gOk ≤ games_remaining satOk :=
  @c6_saturation dOk 0 gOk satOk (by decide) rfl rfl

/-- Claim C3 (corrected): when the built network carries a negative sink
capacity and the trivial pre-check did not fire, the decider does not
short-circuit: it still delegates to the selected solver.  Under the
linear-programming method the solver itself then returns eliminated before
reaching its solve step (trace: `lpCalled = true`, `lpSolved = false`).
The network-flow path has no negative-capacity check at all. -/
theorem c3_lp_negcap {d : Division} {teamID : ℕ} {team : Team}
    {G : List Edge} {sat : List ((ℕ × ℕ) × ℕ)}
    (hW : Wf d) (hteam : d.teams[teamID]? = some team)
    (hc : create_network d teamID = Except.ok (G, sat))
    (hneg : hasNegCap G = true)
    (hflag : trivialFlag d team teamID = false) :
    is_eliminated_t d teamID lpStr
      = Except.ok (true, CallTrace.mk true false true false) := by
  obtain ⟨hG, hsat⟩ := create_network_eq hW hc
  subst hG
  subst hsat
  rw [is_eliminated_t_run hW hteam lpStr, hflag]
  have hlp : linear_programming_t (gStd d teamID) (satStd d teamID)
      = Except.ok (true, false) := by
    rw [linear_programming_t, hneg]
    rfl
  simp [hlp, nfStr, lpStr]

/-- Counterexample to claim C3 as stated: in `dNeg` the candidate-0 network
has a negative sink capacity and the trivial check does not fire, yet the
run under the LP method records `lpCalled = true` — the decider delegated to
the solver instead of returning eliminated beforehand. -/
theorem c3_counterexample :
    (create_network dNeg 0).map (fun gs => hasNegCap gs.1) = Except.ok true ∧
    trivialFlag dNeg (Team.mk 0 "A" 5 0 1 [0, 1, 0]) 0 = false ∧
    (is_eliminated_t dNeg 0 lpStr).map (fun bt => bt.2.lpCalled)
      = Except.ok true := ⟨rfl, rfl, rfl⟩

theorem c3_witness :
    is_eliminated_t dNeg 0 lpStr
      = Except.ok (true, CallTrace.mk true false true false) :=
  @c3_lp_negcap dNeg 0 (Team.mk 0 "A" 5 0 1 [0, 1, 0]) gNeg satNeg
    (by decide) rfl rfl rfl rfl

/-- Claim C4 (corrected): when the wins of some other team strictly exceed the
wins-plus-remaining total of the candidate, `is_eliminated` returns `true` for
every solver string without invoking either solver — but it does construct
the flow network first (trace: `networkBuilt = true`), contrary to the
wording "without constructing the flow network". -/
theorem c4_trivial {d : Division} {teamID : ℕ} {team : Team} (s : String)
    (hW : Wf d) (hteam : d.teams[teamID]? = some team)
    (hflag : trivialFlag d team teamID = true) :
    is_eliminated_t d teamID s
      = Except.ok (true, CallTrace.mk true false false false) := by
  rw [is_eliminated_t_run hW hteam s, hflag]
  simp

/-- Counterexample to claim C4 as stated: in `dTriv` the five wins of team 1
trivially eliminate team 0, and the verdict is `true` with no solver call,
but the run still built the network (`networkBuilt = true`). -/
theorem c4_counterexample :
    trivialFlag dTriv (Team.mk 0 "A" 0 0 0 [0, 0]) 0 = true ∧
    (is_eliminated_t dTriv 0 nfStr).map (fun bt => bt.2.networkBuilt)
      = Except.ok true ∧
    (is_eliminated_t dTriv 0 nfStr).map (fun bt => bt.1)
      = Except.ok true := ⟨rfl, rfl, rfl⟩

theorem c4_witness :
    is_eliminated_t dTriv 0 nfStr
      = Except.ok (true, CallTrace.mk true false false false) :=
  @c4_trivial dTriv 0 (Team.mk 0 "A" 0 0 0 [0, 0]) nfStr (by decide) rfl rfl

/-- Claim C7 (corrected): in the two-team tie division `A(5, 0)` / `B(5, 0)`
the code does not return `false` for both teams: the network of each candidate
gives the other team the negative sink capacity `5 + 0 - 5 - 1 = -1`, so the
LP method returns eliminated (`true`) for both teams, and the network-flow
method fails because the one-opponent network has no `S` node. -/
theorem c7_two_team_tie :
    is_eliminated dTie 0 lpStr = Except.ok true ∧
    is_eliminated dTie 1 lpStr = Except.ok true ∧
    is_eliminated dTie 0 nfStr = Except.error Err.graphErr ∧
    is_eliminated dTie 1 nfStr = Except.error Err.graphErr :=
  ⟨rfl, rfl, rfl, rfl⟩

/-- Counterexample to claim C7 as stated: it is not the case that both teams
of the tie division get verdict `false` under both solver methods. -/
theorem c7_counterexample :
    ¬ (is_eliminated dTie 0 nfStr = Except.ok false ∧
       is_eliminated dTie 1 nfStr = Except.ok false ∧
       is_eliminated dTie 0 lpStr = Except.ok false ∧
       is_eliminated dTie 1 lpStr = Except.ok false) := by
  intro h
  have h1 := h.1
  rw [show is_eliminated dTie 0 nfStr = Except.error Err.graphErr from rfl]
    at h1
  exact Except.noConfusion h1

/-- Claim C8 (confirmed): `get_against` returns the stored head-to-head
count exactly when the opponent entry is present (a zero count included),
and fails with the not-found error exactly when the entry is absent from the
opponent row of the team. -/
theorem c8_get_against (t : Team) (j : ℕ) :
    (∀ n : ℕ, t.get_against j = Except.ok n ↔ t.against[j]? = some n) ∧
    (t.get_against j = Except.error Err.notFound ↔ t.against[j]? = none) := by
  cases h : t.against[j]? with
  | some m => simp [Team.get_against, h]
  | none => simp [Team.get_against, h]

/-- Claim C5 (confirmed): a successful `create_network` run returns a
saturated-edges map whose keys are exactly the unordered pairs of
non-candidate team IDs, each exactly once (zero-count pairs included, since
membership depends only on the IDs); the capacity of each entry is the
`get_against` head-to-head count, the graph has the `S → {i,j}` edge with
that capacity and the two uncapacitated `{i,j} → i`, `{i,j} → j` edges; and
every non-candidate team `i` has the sink edge `i → T` with capacity
`wins[candidate] + remaining[candidate] - wins[i] - 1`. -/
theorem c5_network_shape {d : Division} {teamID : ℕ} (hW : Wf d)
    (ht : teamID < d.teams.length) :
    ∃ G sat, create_network d teamID = Except.ok (G, sat) ∧
      sat.map Prod.fst = pairsOf (remainingIDs d teamID) ∧
      (sat.map Prod.fst).Nodup ∧
      (∀ i j : ℕ, (i, j) ∈ sat.map Prod.fst
        ↔ i < d.teams.length ∧ i ≠ teamID ∧ j < d.teams.length ∧ j ≠ teamID
            ∧ i < j) ∧
      (∀ p : ℕ × ℕ, ∀ c : ℕ, (p, c) ∈ sat →
        ∃ t : Team, d.teams[p.1]? = some t ∧ t.get_against p.2 = Except.ok c ∧
          Edge.mk Node.S (Node.pair p.1 p.2) (some (c : ℤ)) ∈ G ∧
          Edge.mk (Node.pair p.1 p.2) (Node.team p.1) none ∈ G ∧
          Edge.mk (Node.pair p.1 p.2) (Node.team p.2) none ∈ G) ∧
      (∀ i : ℕ, ∀ cand o : Team, i < d.teams.length → i ≠ teamID →
        d.teams[teamID]? = some cand → d.teams[i]? = some o →
        Edge.mk (Node.team i) Node.T
          (some ((cand.wins : ℤ) + (cand.remaining : ℤ) - (o.wins : ℤ) - 1))
          ∈ G) := by
  have hkeys : (satStd d teamID).map Prod.fst
      = pairsOf (remainingIDs d teamID) := by
    rw [satStd, List.map_map]
    have hid : (Prod.fst ∘ fun p : ℕ × ℕ => (p, gaVal d p.1 p.2)) = id := rfl
    rw [hid, List.map_id]
  refine ⟨gStd d teamID, satStd d teamID, create_network_ok hW ht,
    hkeys, ?_, ?_, ?_, ?_⟩
  · rw [hkeys]
    exact pairsOf_nodup (remainingIDs_pairwise d teamID)
  · intro i j
    rw [hkeys, mem_pairsOf_iff (remainingIDs_pairwise d teamID),
      mem_remainingIDs, mem_remainingIDs]
    tauto
  · intro p c hpc
    rcases List.mem_map.mp (show (p, c) ∈ _ from hpc) with ⟨q, hq, heq⟩
    have hq1 : q = p := congrArg Prod.fst heq
    subst hq1
    have hq2 : gaVal d q.1 q.2 = c := congrArg Prod.snd heq
    have hmem1 := mem_of_mem_pairsOf (show (q.1, q.2) ∈ _ from hq)
    have h1 : q.1 < d.teams.length := (mem_remainingIDs.mp hmem1.1).1
    have h2 : q.2 < d.teams.length := (mem_remainingIDs.mp hmem1.2).1
    have ht1 : d.teams[q.1]? = some d.teams[q.1] :=
      List.getElem?_eq_getElem h1
    have hlen : q.2 < (d.teams[q.1]).against.length :=
      lt_of_lt_of_le h2 (hW _ (List.getElem_mem h1))
    have ha : (d.teams[q.1]).against[q.2]?
        = some ((d.teams[q.1]).against[q.2]) := List.getElem?_eq_getElem hlen
    have hc2 : c = (d.teams[q.1]).against[q.2] := by
      rw [← hq2]
      simp only [gaVal, ht1, List.getD_eq_getElem?_getD, ha]
      rfl
    refine ⟨d.teams[q.1], ht1, ?_, ?_, ?_, ?_⟩
    · rw [Team.get_against, ha, hc2]
    · rw [gStd]
      refine List.mem_append.mpr (Or.inl (List.mem_append.mpr (Or.inl ?_)))
      exact List.mem_map.mpr ⟨(q, c), hpc, rfl⟩
    · rw [gStd]
      refine List.mem_append.mpr (Or.inl (List.mem_append.mpr (Or.inr ?_)))
      refine List.mem_flatMap.mpr ⟨(q, c), hpc, ?_⟩
      simp
    · rw [gStd]
      refine List.mem_append.mpr (Or.inl (List.mem_append.mpr (Or.inr ?_)))
      refine List.mem_flatMap.mpr ⟨(q, c), hpc, ?_⟩
      simp
  · intro i cand o h1 h2 hcand ho
    have hi : i ∈ remainingIDs d teamID := mem_remainingIDs.mpr ⟨h1, h2⟩
    have hv : maVal d teamID i
        = (cand.wins : ℤ) + (cand.remaining : ℤ) - (o.wins : ℤ) - 1 := by
      simp [maVal, hcand, ho]
    rw [← hv]
    exact sink_edge_mem_gStd hi

theorem c5_witness :
    ∃ G sat, create_network dOk 0 = Except.ok (G, sat) ∧
      sat.map Prod.fst = pairsOf (remainingIDs dOk 0) ∧
      (sat.map Prod.fst).Nodup ∧
      (∀ i j : ℕ, (i, j) ∈ sat.map Prod.fst
        ↔ i < dOk.teams.length ∧ i ≠ 0 ∧ j < dOk.teams.length ∧ j ≠ 0
            ∧ i < j) ∧
      (∀ p : ℕ × ℕ, ∀ c : ℕ, (p, c) ∈ sat →
        ∃ t : Team, dOk.teams[p.1]? = some t ∧ t.get_against p.2 = Except.ok c ∧
          Edge.mk Node.S (Node.pair p.1 p.2) (some (c : ℤ)) ∈ G ∧
          Edge.mk (Node.pair p.1 p.2) (Node.team p.1) none ∈ G ∧
          Edge.mk (Node.pair p.1 p.2) (Node.team p.2) none ∈ G) ∧
      (∀ i : ℕ, ∀ cand o : Team, i < dOk.teams.length → i ≠ 0 →
        dOk.teams[0]? = some cand → dOk.teams[i]? = some o →
        Edge.mk (Node.team i) Node.T
          (some ((cand.wins : ℤ) + (cand.remaining : ℤ) - (o.wins : ℤ) - 1))
          ∈ G) :=
  @c5_network_shape dOk 0 (by decide) (by decide)

/-- Claim C9 (confirmed): `is_eliminated` fails with the not-found error
exactly on candidate IDs that are not keys of the registry; on a present key
it never raises that error (on a well-formed division), though it may fail
with a different, graph-related error. -/
theorem c9_lookup_error (d : Division) (teamID : ℕ) (s : String) (hW : Wf d) :
    (d.teams[teamID]? = none →
      is_eliminated d teamID s = Except.error Err.notFound) ∧
    (∀ team : Team, d.teams[teamID]? = some team →
      is_eliminated d teamID s ≠ Except.error Err.notFound) := by
  constructor
  · intro h
    rw [is_eliminated, is_eliminated_t, h]
    rfl
  · intro team hteam
    rw [is_eliminated, is_eliminated_t_run hW hteam s]
    cases hflag : trivialFlag d team teamID with
    | true => simp [Except.map]
    | false =>
        simp only [Bool.false_eq_true, if_false]
        by_cases hnf : s = nfStr
        · rw [if_pos hnf]
          cases hx : network_flows (gStd d teamID) (satStd d teamID) with
          | ok b => simp [Except.map]
          | error e =>
              simp only [Except.map]
              intro heq
              rcases network_flows_error_kind hx with h1 | h1 <;>
                · rw [h1] at heq
                  exact Err.noConfusion (Except.error.inj heq)
        · rw [if_neg hnf]
          by_cases hlp : s = lpStr
          · rw [if_pos hlp]
            cases hx : linear_programming_t (gStd d teamID) (satStd d teamID)
              with
            | ok bs => simp [Except.map]
            | error e =>
                simp only [Except.map]
                intro heq
                have h1 := linear_programming_t_error_kind hx
                rw [h1] at heq
                exact Err.noConfusion (Except.error.inj heq)
          · rw [if_neg hlp]
            simp [Except.map]

theorem c9_witness :
    (dTriv.teams[5]? = none →
      is_eliminated dTriv 5 nfStr = Except.error Err.notFound) ∧
    (∀ team : Team, dTriv.teams[5]? = some team →
      is_eliminated dTriv 5 nfStr ≠ Except.error Err.notFound) :=
  c9_lookup_error dTriv 5 nfStr (by decide)

/-- Claim C10 (confirmed): on a present team whose trivial pre-check does
not fire, any solver string other than exactly `"Network Flows"` or
`"Linear Programming"` makes `is_eliminated` return `false` without calling
either solver and without an error (the network is still built). -/
theorem c10_unknown_solver {d : Division} {teamID : ℕ} {team : Team}
    (s : String) (hW : Wf d) (hteam : d.teams[teamID]? = some team)
    (hflag : trivialFlag d team teamID = false)
    (hnf : s ≠ nfStr) (hlp : s ≠ lpStr) :
    is_eliminated_t d teamID s
      = Except.ok (false, CallTrace.mk true false false false) := by
  rw [is_eliminated_t_run hW hteam s, hflag]
  simp [hnf, hlp]

theorem c10_witness :
    is_eliminated_t dOk 0 ("network-flow")
      = Except.ok (false, CallTrace.mk true false false false) :=
  @c10_unknown_solver dOk 0 (Team.mk 0 "A" 3 0 2 [0, 1, 1]) ("network-flow")
    (by decide) rfl rfl (by decide) (by decide)

end Badminton
